import Mathlib

/-!
Verification of the rbxflags/js-api flag-list preprocessing and merge pipeline.

The TypeScript sources embedded here:
- `src/src/FlagListPreprocessor.ts` : `downloadFile`, `defaultRecursive`,
  `fetchFlagList`, `fetchFlagLists`;
- the `RFO` main class (`src/unnamed/part_001`) : `getFlagFiles`,
  `dumpFlags`, `mergeFlagFiles`, `applyFlags`.

JavaScript objects are modelled as insertion-ordered association lists of
string keys; JavaScript values as the inductive `JVal` (one constructor per
`typeof`-class the code distinguishes: `undefined`, `null`, primitives, and
object-typed values, where arrays are objects with index keys and an
`isArray` tag, matching `typeof [] === 'object'` and `for..in` over index
keys).  Stateful operations (network, filesystem cache) are modelled by
explicit oracles passed as arguments plus a returned effect trace; code
that can throw returns `Except String`.
-/

/-- Insertion-ordered association-list lookup (JS property read order:
first matching key; JS objects never hold duplicate keys). -/
def lookupAssoc {β : Type} : List (String × β) → String → Option β
  | [], _ => none
  | (k', v) :: rest, k => if k' = k then some v else lookupAssoc rest k

/-- JS property write: overwrite in place if the key exists (keeping its
insertion position), otherwise append at the end. -/
def setAssoc {β : Type} : List (String × β) → String → β → List (String × β)
  | [], k, v => [(k, v)]
  | (k', v') :: rest, k, v =>
    if k' = k then (k', v) :: rest else (k', v') :: setAssoc rest k v

/-- JavaScript values, as far as `defaultRecursive` and the merge pipeline
distinguish them.  `prim` stands for any defined non-object primitive
(number, string, boolean, ...): the code only tests `typeof x === 'object'`
and nullish-ness, never the finer primitive type.  `objv arr fields` is an
object (`arr = true` when it is an array: arrays are object-typed and
`for..in` iterates their index keys). -/
inductive JVal where
  | undefv : JVal
  | null : JVal
  | prim : Nat → JVal
  | objv : Bool → List (String × JVal) → JVal

/-- JS test `typeof v === 'object'`: true for `null`, objects and arrays. -/
def typeofObject : JVal → Bool
  | .null => true
  | .objv _ _ => true
  | _ => false

/-- JS nullish test (the `??` operator takes the right operand exactly on
`null` and `undefined`). -/
def nullish : JVal → Bool
  | .null => true
  | .undefv => true
  | _ => false

/-- Is the value an actual object/array (not `null`)? -/
def isObjv : JVal → Bool
  | .objv _ _ => true
  | _ => false

/-- The value stored at key `k`, `undefined` when absent. -/
def fieldVal (g : List (String × JVal)) (k : String) : JVal :=
  (lookupAssoc g k).getD .undefv

/-- JS property read `obj[key]`: throws a TypeError on `null`/`undefined`,
boxes primitives (yielding `undefined` for keys they lack). -/
def getProp : JVal → String → Except String JVal
  | .null, _ => .error "TypeError: Cannot read properties of null"
  | .undefv, _ => .error "TypeError: Cannot read properties of undefined"
  | .prim _, _ => .ok .undefv
  | .objv _ g, k => .ok (fieldVal g k)

/-- JS property write `obj[key] = v` in strict mode (the package is built
as ES modules): throws a TypeError on `null`, `undefined` and primitives. -/
def setProp : JVal → String → JVal → Except String JVal
  | .objv b g, k, v => .ok (.objv b (setAssoc g k v))
  | _, _, _ => .error "TypeError: Cannot set property"

mutual

/-- Model of `FlagListPreprocessor.defaultRecursive(obj, defaultObj)`
(FlagListPreprocessor.ts lines 124-134), the spec's `applyDefaults`:
`for (const key in defaultObj)` — zero iterations unless `defaultObj` is
object-typed and non-null — assigning
`objJoint[key] = (both object-typed) ? recurse : (objJoint[key] ?? defaultObj[key])`.
Modelled as a pure value transformation (the source mutates `obj` in place
and returns it; on tree-shaped values the returned value is this one). -/
def defaultRecursive (obj dflt : JVal) : Except String JVal :=
  match dflt with
  | .objv _ fs => drFields obj fs
  | _ => .ok obj
termination_by sizeOf dflt

/-- One `for..in` iteration step of `defaultRecursive` for each remaining
`(key, default-entry)` pair, threading the updated object. -/
def drFields (obj : JVal) (fs : List (String × JVal)) : Except String JVal :=
  match fs with
  | [] => .ok obj
  | (k, dv) :: rest =>
    match getProp obj k with
    | .error e => .error e
    | .ok ov =>
      match mstep ov dv with
      | .error e => .error e
      | .ok newv =>
        match setProp obj k newv with
        | .error e => .error e
        | .ok obj2 => drFields obj2 rest
termination_by sizeOf fs

/-- The per-key merge: recurse when both sides are object-typed
(`typeof x === 'object'`, which includes `null` and arrays), otherwise
nullish-coalesce (`objJoint[key] ?? defaultObj[key]`). -/
def mstep (ov dv : JVal) : Except String JVal :=
  if typeofObject ov && typeofObject dv then defaultRecursive ov dv
  else .ok (if nullish ov then dv else ov)
termination_by sizeOf dv + 1

end

/-- Well-formed JS value: every object's key list is duplicate-free
(guaranteed for every real JavaScript object), recursively. -/
inductive WFv : JVal → Prop where
  | undefv : WFv .undefv
  | null : WFv .null
  | prim : ∀ n, WFv (.prim n)
  | objv : ∀ b fs, (fs.map Prod.fst).Nodup → (∀ kv ∈ fs, WFv kv.2) →
      WFv (.objv b fs)

/-! Section: association-list lemmas -/

theorem lookup_setAssoc_self {β : Type} (g : List (String × β)) (k : String) (v : β) :
    lookupAssoc (setAssoc g k v) k = some v := by
  induction g with
  | nil => simp [setAssoc, lookupAssoc]
  | cons kv rest ih =>
    obtain ⟨k', v'⟩ := kv
    by_cases h : k' = k <;> simp [setAssoc, lookupAssoc, h, ih]

theorem lookup_setAssoc_ne {β : Type} (g : List (String × β)) (k k' : String) (v : β)
    (h : k' ≠ k) : lookupAssoc (setAssoc g k v) k' = lookupAssoc g k' := by
  have hk : ¬(k = k') := fun he => h he.symm
  induction g with
  | nil => simp [setAssoc, lookupAssoc, hk]
  | cons kv rest ih =>
    obtain ⟨k0, v0⟩ := kv
    by_cases h0 : k0 = k
    · subst h0
      simp [setAssoc, lookupAssoc, hk]
    · simp [setAssoc, lookupAssoc, h0, ih]

theorem setAssoc_eq_of_lookup {β : Type} (g : List (String × β)) (k : String) (v : β)
    (h : lookupAssoc g k = some v) : setAssoc g k v = g := by
  induction g with
  | nil => simp [lookupAssoc] at h
  | cons kv rest ih =>
    obtain ⟨k0, v0⟩ := kv
    by_cases h0 : k0 = k
    · subst h0
      simp [lookupAssoc] at h
      simp [setAssoc, h]
    · simp [lookupAssoc, h0] at h
      simp [setAssoc, h0, ih h]

theorem setAssoc_of_lookup_none {β : Type} (g : List (String × β)) (k : String) (v : β)
    (h : lookupAssoc g k = none) : setAssoc g k v = g ++ [(k, v)] := by
  induction g with
  | nil => simp [setAssoc]
  | cons kv rest ih =>
    obtain ⟨k0, v0⟩ := kv
    by_cases h0 : k0 = k
    · simp [lookupAssoc, h0] at h
    · simp [lookupAssoc, h0] at h
      simp [setAssoc, h0, ih h]

theorem lookup_of_mem_nodup {β : Type} (g : List (String × β)) (k : String) (v : β)
    (hnd : (g.map Prod.fst).Nodup) (hmem : (k, v) ∈ g) : lookupAssoc g k = some v := by
  induction g with
  | nil => simp at hmem
  | cons kv rest ih =>
    obtain ⟨k0, v0⟩ := kv
    simp only [List.map_cons, List.nodup_cons] at hnd
    rcases List.mem_cons.mp hmem with h | h
    · obtain ⟨rfl, rfl⟩ := Prod.mk.injEq .. ▸ h
      simp [lookupAssoc]
    · have hne : k0 ≠ k := by
        intro he
        exact hnd.1 (he ▸ (List.mem_map.mpr ⟨(k, v), h, rfl⟩))
      simp [lookupAssoc, hne, ih hnd.2 h]

theorem lookup_append_left_none {β : Type} (g1 g2 : List (String × β)) (k : String)
    (h : lookupAssoc g1 k = none) : lookupAssoc (g1 ++ g2) k = lookupAssoc g2 k := by
  induction g1 with
  | nil => simp
  | cons kv rest ih =>
    obtain ⟨k0, v0⟩ := kv
    by_cases h0 : k0 = k
    · simp [lookupAssoc, h0] at h
    · simp [lookupAssoc, h0] at h ⊢
      exact ih h

/-! Section: structural lemmas about `defaultRecursive` -/

theorem drFields_ok_objv : ∀ (fs : List (String × JVal)) (b : Bool)
    (g : List (String × JVal)) (r : JVal),
    drFields (.objv b g) fs = .ok r → ∃ g2, r = .objv b g2 := by
  intro fs
  induction fs with
  | nil =>
    intro b g r h
    simp [drFields] at h
    exact ⟨g, h.symm⟩
  | cons kv rest ih =>
    intro b g r h
    obtain ⟨k, dv⟩ := kv
    simp only [drFields, getProp] at h
    cases hm : mstep (fieldVal g k) dv with
    | error e => rw [hm] at h; simp at h
    | ok nv =>
      rw [hm] at h
      simp only [setProp] at h
      exact ih b (setAssoc g k nv) r h

theorem dr_preserves_objType (o d r : JVal) (h : defaultRecursive o d = .ok r)
    (ho : typeofObject o = true) : typeofObject r = true := by
  cases d with
  | undefv => simp only [defaultRecursive] at h; cases h; exact ho
  | null => simp only [defaultRecursive] at h; cases h; exact ho
  | prim n => simp only [defaultRecursive] at h; cases h; exact ho
  | objv b fs =>
    simp only [defaultRecursive] at h
    cases fs with
    | nil =>
      simp [drFields] at h
      exact h ▸ ho
    | cons kv rest =>
      obtain ⟨k, dv⟩ := kv
      cases o with
      | undefv => simp [typeofObject] at ho
      | prim n => simp [typeofObject] at ho
      | null => simp [drFields, getProp] at h
      | objv b0 g =>
        obtain ⟨g2, rfl⟩ := drFields_ok_objv _ b0 g r h
        simp [typeofObject]

theorem drFields_cons_obj (k : String) (dv : JVal) (rest : List (String × JVal))
    (o r : JVal) (h : drFields o ((k, dv) :: rest) = .ok r) :
    ∃ b g, o = .objv b g := by
  cases o with
  | objv b g => exact ⟨b, g, rfl⟩
  | null => simp [drFields, getProp] at h
  | undefv => simp [drFields, getProp] at h
  | prim n =>
    simp only [drFields, getProp] at h
    cases hm : mstep .undefv dv with
    | error e => rw [hm] at h; simp at h
    | ok nv => rw [hm] at h; simp [setProp] at h

theorem drFields_lookup : ∀ (fs : List (String × JVal)) (b : Bool)
    (g g2 : List (String × JVal)),
    (fs.map Prod.fst).Nodup → drFields (.objv b g) fs = .ok (.objv b g2) →
    (∀ kv ∈ fs, ∃ nv, mstep (fieldVal g kv.1) kv.2 = .ok nv ∧
        lookupAssoc g2 kv.1 = some nv) ∧
    (∀ k, k ∉ fs.map Prod.fst → lookupAssoc g2 k = lookupAssoc g k) := by
  intro fs
  induction fs with
  | nil =>
    intro b g g2 _ h
    simp [drFields] at h
    exact ⟨by simp, fun k _ => by rw [h]⟩
  | cons kv rest ih =>
    intro b g g2 hnd h
    obtain ⟨k, dv⟩ := kv
    simp only [List.map_cons, List.nodup_cons] at hnd
    obtain ⟨hk, hndr⟩ := hnd
    simp only [drFields, getProp] at h
    cases hm : mstep (fieldVal g k) dv with
    | error e => rw [hm] at h; simp at h
    | ok nv =>
      rw [hm] at h
      simp only [setProp] at h
      obtain ⟨P1, P2⟩ := ih b (setAssoc g k nv) g2 hndr h
      constructor
      · intro kv2 hkv2
        rcases List.mem_cons.mp hkv2 with heq | hmem
        · subst heq
          refine ⟨nv, hm, ?_⟩
          rw [P2 k hk]
          exact lookup_setAssoc_self g k nv
        · have hne : kv2.1 ≠ k := by
            intro he
            exact hk (he ▸ List.mem_map.mpr ⟨kv2, hmem, rfl⟩)
          obtain ⟨nv2, hm2, hl2⟩ := P1 kv2 hmem
          refine ⟨nv2, ?_, hl2⟩
          rwa [fieldVal, lookup_setAssoc_ne g k kv2.1 nv hne] at hm2
      · intro k' hk'
        simp only [List.map_cons, List.mem_cons] at hk'
        push_neg at hk'
        rw [P2 k' hk'.2]
        exact lookup_setAssoc_ne g k k' nv hk'.1

theorem drFields_fix : ∀ (fs : List (String × JVal)) (b : Bool)
    (g : List (String × JVal)),
    (∀ kv ∈ fs, ∃ nv, lookupAssoc g kv.1 = some nv ∧ mstep nv kv.2 = .ok nv) →
    drFields (.objv b g) fs = .ok (.objv b g) := by
  intro fs
  induction fs with
  | nil => intro b g _; simp [drFields]
  | cons kv rest ih =>
    intro b g hyp
    obtain ⟨k, dv⟩ := kv
    obtain ⟨nv, hl, hm⟩ := hyp (k, dv) (List.mem_cons_self _ _)
    have hfv : fieldVal g k = nv := by simp [fieldVal, hl]
    simp only [drFields, getProp, hfv, hm, setProp, setAssoc_eq_of_lookup g k nv hl]
    exact ih b g (fun kv2 h2 => hyp kv2 (List.mem_cons_of_mem _ h2))

theorem drFields_grow : ∀ (fs : List (String × JVal)) (b : Bool)
    (g : List (String × JVal)),
    (∀ kv ∈ fs, lookupAssoc g kv.1 = none) → (fs.map Prod.fst).Nodup →
    drFields (.objv b g) fs = .ok (.objv b (g ++ fs)) := by
  intro fs
  induction fs with
  | nil => intro b g _ _; simp [drFields]
  | cons kv rest ih =>
    intro b g habs hnd
    obtain ⟨k, dv⟩ := kv
    simp only [List.map_cons, List.nodup_cons] at hnd
    have hl : lookupAssoc g k = none := habs (k, dv) (List.mem_cons_self _ _)
    have hfv : fieldVal g k = .undefv := by simp [fieldVal, hl]
    have hm : mstep .undefv dv = .ok dv := by
      simp [mstep, typeofObject, nullish]
    simp only [drFields, getProp, hfv, hm, setProp, setAssoc_of_lookup_none g k dv hl]
    have := ih b (g ++ [(k, dv)]) (fun kv2 h2 => by
      have hne : kv2.1 ≠ k := by
        intro he
        exact hnd.1 (he ▸ List.mem_map.mpr ⟨kv2, h2, rfl⟩)
      rw [lookup_append_left_none g [(k, dv)] kv2.1 (habs kv2 (List.mem_cons_of_mem _ h2))]
      have hne2 : ¬(k = kv2.1) := fun he => hne he.symm
      simp [lookupAssoc, hne2]) hnd.2
    rw [this]
    simp

theorem sizeOf_snd_lt_objv (b : Bool) (fs : List (String × JVal))
    (kv : String × JVal) (h : kv ∈ fs) : sizeOf kv.2 < sizeOf (JVal.objv b fs) := by
  have h1 : sizeOf kv < sizeOf fs := List.sizeOf_lt_of_mem h
  obtain ⟨k, v⟩ := kv
  simp only [Prod.mk.sizeOf_spec] at h1
  simp only [JVal.objv.sizeOf_spec]
  omega

/-- Core invariant of `defaultRecursive`, proved by strong induction on the
size of the defaults value: (a) merging a well-formed object-typed value
into itself is the identity; (b) a successful merge result is a fixed point
of merging with the same defaults. -/
theorem dr_self_and_idem : ∀ (n : Nat) (d : JVal), sizeOf d ≤ n → WFv d →
    ((typeofObject d = true → defaultRecursive d d = .ok d) ∧
     (∀ o r, defaultRecursive o d = .ok r → defaultRecursive r d = .ok r)) := by
  intro n
  induction n using Nat.strongRecOn with
  | ind n IH =>
    intro d hsz hwf
    cases d with
    | undefv =>
      exact ⟨fun h => by simp [typeofObject] at h,
        fun o r h => by simp [defaultRecursive]⟩
    | null =>
      exact ⟨fun _ => by simp [defaultRecursive],
        fun o r h => by simp [defaultRecursive]⟩
    | prim m =>
      exact ⟨fun h => by simp [typeofObject] at h,
        fun o r h => by simp [defaultRecursive]⟩
    | objv b fs =>
      cases hwf with
      | objv _ _ hnd hsub =>
      have hIHkv : ∀ kv ∈ fs,
          ((typeofObject kv.2 = true → defaultRecursive kv.2 kv.2 = .ok kv.2) ∧
           (∀ o r, defaultRecursive o kv.2 = .ok r →
              defaultRecursive r kv.2 = .ok r)) := by
        intro kv hkv
        have hlt : sizeOf kv.2 < n :=
          Nat.lt_of_lt_of_le (sizeOf_snd_lt_objv b fs kv hkv) hsz
        exact IH (sizeOf kv.2) hlt kv.2 (Nat.le_refl _) (hsub kv hkv)
      have hmm : ∀ kv ∈ fs, mstep kv.2 kv.2 = .ok kv.2 := by
        intro kv hkv
        by_cases hb : typeofObject kv.2 = true
        · rw [mstep, if_pos (by rw [hb]; rfl)]
          exact (hIHkv kv hkv).1 hb
        · rw [Bool.not_eq_true] at hb
          simp [mstep, hb]
      constructor
      · intro _
        simp only [defaultRecursive]
        exact drFields_fix fs b fs (fun kv hkv =>
          ⟨kv.2, lookup_of_mem_nodup fs kv.1 kv.2 hnd (by
            obtain ⟨k0, v0⟩ := kv; exact hkv), hmm kv hkv⟩)
      · intro o r h
        simp only [defaultRecursive] at h ⊢
        cases fs with
        | nil => simp [drFields]
        | cons kv0 rest0 =>
          obtain ⟨b0, g, rfl⟩ := drFields_cons_obj kv0.1 kv0.2 rest0 o r
            (by obtain ⟨k0, v0⟩ := kv0; exact h)
          obtain ⟨g2, rfl⟩ := drFields_ok_objv (kv0 :: rest0) b0 g r h
          obtain ⟨P1, _⟩ := drFields_lookup (kv0 :: rest0) b0 g g2 hnd h
          apply drFields_fix
          intro kv hkv
          obtain ⟨nv, hm, hl⟩ := P1 kv hkv
          refine ⟨nv, hl, ?_⟩
          by_cases hc : (typeofObject (fieldVal g kv.1) && typeofObject kv.2) = true
          · rw [mstep, if_pos hc] at hm
            obtain ⟨ho, hd⟩ := Bool.and_eq_true_iff.mp hc
            have hnvt : typeofObject nv = true :=
              dr_preserves_objType (fieldVal g kv.1) kv.2 nv hm ho
            rw [mstep, if_pos (by rw [hnvt, hd]; rfl)]
            exact (hIHkv kv hkv).2 (fieldVal g kv.1) nv hm
          · rw [mstep, if_neg hc] at hm
            by_cases hn : nullish (fieldVal g kv.1) = true
            · rw [if_pos hn] at hm
              cases hm
              exact hmm kv hkv
            · rw [Bool.not_eq_true] at hn
              rw [hn, if_neg (by simp)] at hm
              cases hm
              rw [mstep, if_neg hc, hn, if_neg (by simp)]

/-- C7: applyDefaults (defaultRecursive) is idempotent: for every partial
value and every defaults object (well-formed JS values: object keys are
duplicate-free), running it a second time over its own result is the
identity, and applying defaults to an empty object returns the defaults
unchanged. -/
theorem applyDefaults_idempotent :
    (∀ p f, WFv f →
      Except.bind (defaultRecursive p f) (fun m => defaultRecursive m f) =
        defaultRecursive p f) ∧
    (∀ fs, WFv (.objv false fs) →
      defaultRecursive (.objv false []) (.objv false fs) = .ok (.objv false fs)) := by
  constructor
  · intro p f hwf
    cases h : defaultRecursive p f with
    | error e => rfl
    | ok m =>
      show defaultRecursive m f = .ok m
      exact (dr_self_and_idem (sizeOf f) f (Nat.le_refl _) hwf).2 p m h
  · intro fs hwf
    cases hwf with
    | objv _ _ hnd _ =>
    simp only [defaultRecursive]
    have := drFields_grow fs false [] (fun kv _ => by simp [lookupAssoc]) hnd
    simpa using this

theorem applyDefaults_idempotent_witness :
    (Except.bind (defaultRecursive (.objv false [("a", .prim 1)])
        (.objv false [("a", .prim 2), ("b", .prim 3)]))
      (fun m => defaultRecursive m (.objv false [("a", .prim 2), ("b", .prim 3)])) =
      defaultRecursive (.objv false [("a", .prim 1)])
        (.objv false [("a", .prim 2), ("b", .prim 3)])) ∧
    defaultRecursive (.objv false []) (.objv false [("b", .prim 3)]) =
      .ok (.objv false [("b", .prim 3)]) := by
  have hw1 : WFv (.objv false [("a", .prim 2), ("b", .prim 3)]) := by
    apply WFv.objv
    · decide
    · intro kv hkv
      simp only [List.mem_cons, List.not_mem_nil, or_false] at hkv
      rcases hkv with rfl | rfl
      · exact WFv.prim 2
      · exact WFv.prim 3
  have hw2 : WFv (.objv false [("b", .prim 3)]) := by
    apply WFv.objv
    · decide
    · intro kv hkv
      simp only [List.mem_cons, List.not_mem_nil, or_false] at hkv
      rcases hkv with rfl
      exact WFv.prim 3
  exact ⟨applyDefaults_idempotent.1 _ _ hw1, applyDefaults_idempotent.2 _ hw2⟩

/-- C8 counterexample: the claim says a present array in the value fully
replaces the default array.  It does not: `typeof [] === 'object'`, so two
arrays take the recursive branch and are merged element-wise.  Merging
value `{a: [10]}` with defaults `{a: [1, 2]}` yields `{a: [10, 2]}` (the
default's extra element survives), not `{a: [10]}`. -/
theorem applyDefaults_array_merged_elementwise :
    defaultRecursive (.objv false [("a", .objv true [("0", .prim 10)])])
      (.objv false [("a", .objv true [("0", .prim 1), ("1", .prim 2)])]) =
      .ok (.objv false [("a", .objv true [("0", .prim 10), ("1", .prim 2)])]) ∧
    JVal.objv true [("0", .prim 10), ("1", .prim 2)] ≠ .objv true [("0", .prim 10)] := by
  constructor
  · simp [defaultRecursive, drFields, mstep, getProp, setProp, fieldVal,
      lookupAssoc, setAssoc, typeofObject, nullish]
  · intro h
    have := (JVal.objv.injEq _ _ _ _).mp h
    simp at this

/-- C8 amended: a present array in the value replaces the default entry
only when the default entry is not itself object-typed (`typeof` not
`'object'`: a primitive or `undefined`); when the default entry is also
object-typed — in particular another array — the two are merged key-wise
(element-wise for arrays), so default entries at keys/indices the value's
array lacks are filled in rather than discarded. -/
theorem applyDefaults_array_replaces_nonobject_default
    (k : String) (af : List (String × JVal)) (d : JVal)
    (hd : typeofObject d = false) :
    defaultRecursive (.objv false [(k, .objv true af)]) (.objv false [(k, d)]) =
      .ok (.objv false [(k, .objv true af)]) := by
  simp only [defaultRecursive, drFields, getProp, fieldVal, lookupAssoc,
    if_pos rfl, Option.getD_some]
  rw [mstep, if_neg (by simp [hd]), if_neg (by simp [nullish])]
  simp [setProp, setAssoc, drFields]

theorem applyDefaults_array_replaces_nonobject_default_witness :
    defaultRecursive (.objv false [("a", .objv true [("0", .prim 10)])])
      (.objv false [("a", .prim 7)]) =
      .ok (.objv false [("a", .objv true [("0", .prim 10)])]) :=
  applyDefaults_array_replaces_nonobject_default "a" [("0", .prim 10)]
    (.prim 7) (by simp [typeofObject])

/-- C9 counterexample: the claim says applyDefaults is total and
throw-free even when a value entry is `null` against a structured default.
In fact `typeof null === 'object'`, so the code recurses with
`objJoint = null` and then `objJoint[key]` throws a TypeError. -/
theorem applyDefaults_null_entry_throws :
    defaultRecursive (.objv false [("a", .null)])
      (.objv false [("a", .objv false [("b", .prim 1)])]) =
      .error "TypeError: Cannot read properties of null" := by
  simp [defaultRecursive, drFields, mstep, getProp, setProp, fieldVal,
    lookupAssoc, setAssoc, typeofObject, nullish]

/-- Compatibility of a value with a defaults value: whenever the defaults
side is an actual object with at least one key, the value side is an
actual object too, and recursively so wherever both corresponding entries
are object-typed.  Within this region `defaultRecursive` hits no
TypeError (the converse is not asserted here); note `undefined` and
primitive entries are always compatible — they take the nullish-coalesce
branch, never the throwing recursive one. -/
inductive Compat : JVal → JVal → Prop where
  | notObj : ∀ o d, isObjv d = false → Compat o d
  | empty : ∀ o b, Compat o (.objv b [])
  | obj : ∀ b g b' fs,
      (∀ kv ∈ fs, typeofObject (fieldVal g kv.1) = true →
        typeofObject kv.2 = true → Compat (fieldVal g kv.1) kv.2) →
      Compat (.objv b g) (.objv b' fs)

theorem drFields_total : ∀ (fs : List (String × JVal)) (b : Bool)
    (g : List (String × JVal)),
    (fs.map Prod.fst).Nodup →
    (∀ kv ∈ fs, typeofObject (fieldVal g kv.1) = true →
      typeofObject kv.2 = true →
      ∃ r, defaultRecursive (fieldVal g kv.1) kv.2 = .ok r) →
    ∃ g2, drFields (.objv b g) fs = .ok (.objv b g2) := by
  intro fs
  induction fs with
  | nil => intro b g _ _; exact ⟨g, by simp [drFields]⟩
  | cons kv rest ih =>
    intro b g hnd hyp
    obtain ⟨k, dv⟩ := kv
    simp only [List.map_cons, List.nodup_cons] at hnd
    have hstep : ∃ nv, mstep (fieldVal g k) dv = .ok nv := by
      by_cases hc : (typeofObject (fieldVal g k) && typeofObject dv) = true
      · obtain ⟨ho, hd⟩ := Bool.and_eq_true_iff.mp hc
        obtain ⟨r, hr⟩ := hyp (k, dv) (List.mem_cons_self _ _) ho hd
        exact ⟨r, by rw [mstep, if_pos hc]; exact hr⟩
      · exact ⟨_, by rw [mstep, if_neg hc]⟩
    obtain ⟨nv, hm⟩ := hstep
    have hrest : ∀ kv2 ∈ rest,
        typeofObject (fieldVal (setAssoc g k nv) kv2.1) = true →
        typeofObject kv2.2 = true →
        ∃ r, defaultRecursive (fieldVal (setAssoc g k nv) kv2.1) kv2.2 = .ok r := by
      intro kv2 h2
      have hne : kv2.1 ≠ k := by
        intro he
        exact hnd.1 (he ▸ List.mem_map.mpr ⟨kv2, h2, rfl⟩)
      rw [fieldVal, lookup_setAssoc_ne g k kv2.1 nv hne]
      exact hyp kv2 (List.mem_cons_of_mem _ h2)
    obtain ⟨g2, hg2⟩ := ih b (setAssoc g k nv) hnd.2 hrest
    refine ⟨g2, ?_⟩
    simp only [drFields, getProp, hm, setProp]
    exact hg2

/-- C9 amended: applyDefaults always terminates and, as a value
transformation, returns a merged value whenever the value is compatible
with the well-formed defaults (`Compat`: wherever the defaults side is an
actual object with at least one key, the value side is an actual object
too, recursively at spots where both entries are object-typed).  It is
NOT total on all inputs: a `null` value entry meeting a non-empty object
default throws a TypeError — `typeof null` is `'object'`, so the null
enters the recursive branch where the property read throws (see the
counterexample) — as does passing `null`/`undefined`/a primitive as the
whole value against a non-empty defaults object.  `undefined` and
primitive *entries* never throw: not being object-typed they take the
nullish-coalesce branch (the witness exercises a primitive entry meeting
a non-empty object default).  The source also mutates its first argument
in place rather than staying pure. -/
theorem applyDefaults_total_on_compatible : ∀ (d o : JVal), WFv d → Compat o d →
    ∃ r, defaultRecursive o d = .ok r := by
  have main : ∀ (n : Nat) (d : JVal), sizeOf d ≤ n → WFv d →
      ∀ o, Compat o d → ∃ r, defaultRecursive o d = .ok r := by
    intro n
    induction n using Nat.strongRecOn with
    | ind n IH =>
      intro d hsz hwf o hcompat
      cases hcompat with
      | notObj o d hno =>
        cases d with
        | objv b fs => simp [isObjv] at hno
        | undefv => exact ⟨o, by simp [defaultRecursive]⟩
        | null => exact ⟨o, by simp [defaultRecursive]⟩
        | prim m => exact ⟨o, by simp [defaultRecursive]⟩
      | empty o b => exact ⟨o, by simp [defaultRecursive, drFields]⟩
      | obj b g b' fs hpt =>
        cases hwf with
        | objv _ _ hnd hsub =>
        have hyp : ∀ kv ∈ fs, typeofObject (fieldVal g kv.1) = true →
            typeofObject kv.2 = true →
            ∃ r, defaultRecursive (fieldVal g kv.1) kv.2 = .ok r := by
          intro kv hkv ho hd
          have hlt : sizeOf kv.2 < n :=
            Nat.lt_of_lt_of_le (sizeOf_snd_lt_objv b' fs kv hkv) hsz
          exact IH (sizeOf kv.2) hlt kv.2 (Nat.le_refl _) (hsub kv hkv)
            (fieldVal g kv.1) (hpt kv hkv ho hd)
        obtain ⟨g2, hg2⟩ := drFields_total fs b g hnd hyp
        exact ⟨.objv b g2, by simp only [defaultRecursive]; exact hg2⟩
  intro d o hwf hcompat
  exact main (sizeOf d) d (Nat.le_refl _) hwf o hcompat

theorem applyDefaults_total_on_compatible_witness :
    (∃ r, defaultRecursive (.objv false []) (.objv false [("b", .prim 1)]) = .ok r) ∧
    (∃ r, defaultRecursive (.objv false [("a", .prim 5)])
      (.objv false [("a", .objv false [("b", .prim 1)])]) = .ok r) := by
  constructor
  · have hwf : WFv (.objv false [("b", .prim 1)]) := by
      apply WFv.objv
      · decide
      · intro kv hkv
        simp only [List.mem_cons, List.not_mem_nil, or_false] at hkv
        rcases hkv with rfl
        exact WFv.prim 1
    have hcompat : Compat (.objv false []) (.objv false [("b", .prim 1)]) := by
      apply Compat.obj
      intro kv hkv ho _
      simp only [List.mem_cons, List.not_mem_nil, or_false] at hkv
      subst hkv
      simp [fieldVal, lookupAssoc, typeofObject] at ho
    exact applyDefaults_total_on_compatible (.objv false [("b", .prim 1)])
      (.objv false []) hwf hcompat
  · have hwf : WFv (.objv false [("a", .objv false [("b", .prim 1)])]) := by
      apply WFv.objv
      · decide
      · intro kv hkv
        simp only [List.mem_cons, List.not_mem_nil, or_false] at hkv
        rcases hkv with rfl
        apply WFv.objv
        · decide
        · intro kv2 hkv2
          simp only [List.mem_cons, List.not_mem_nil, or_false] at hkv2
          rcases hkv2 with rfl
          exact WFv.prim 1
    have hcompat : Compat (.objv false [("a", .prim 5)])
        (.objv false [("a", .objv false [("b", .prim 1)])]) := by
      apply Compat.obj
      intro kv hkv ho _
      simp only [List.mem_cons, List.not_mem_nil, or_false] at hkv
      subst hkv
      simp [fieldVal, lookupAssoc, typeofObject] at ho
    exact applyDefaults_total_on_compatible
      (.objv false [("a", .objv false [("b", .prim 1)])])
      (.objv false [("a", .prim 5)]) hwf hcompat

/-! Section: content cache, `FlagListPreprocessor.downloadFile` -/

/-- JS `String.prototype.toUpperCase` restricted to the character-wise
uppercase map (all algorithm names in play are ASCII). -/
def jsToUpper (s : String) : String :=
  String.mk (s.data.map Char.toUpper)

/-- Model of `FileHash` from MiscTypes: `{algorithm, digest}`.  The `'none'` variant
carries a null/undefined digest the code never reads, so `digest` is kept
as a plain string here. -/
structure FileHash where
  algorithm : String
  digest : String

/-- Model of `File` from MiscTypes: relative route `f` plus hash `h`. -/
structure FileRef where
  f : String
  h : FileHash

/-- Observable side effects of `downloadFile`: HTTP GETs (in order) and
cache-file writes. -/
inductive NetEffect where
  | netGet : String → NetEffect
  | cacheWrite : String → List Nat → NetEffect
deriving DecidableEq

/-- Model of `FlagListPreprocessor.downloadFile(file, baseUrl)`
(FlagListPreprocessor.ts lines 62-99), modelled over three oracles:
`hashHex algorithm data` for `crypto.createHash(algorithm).update(data).digest('hex')`,
`cacheHas path` for `existsSync(path)`, and `httpGet url` for `axios.get`
(`none` = the request rejects; `some (status, bytes)` = a response).
Returns the result plus the ordered effect trace.  Note the source's named-
algorithm branch requests `fileRoute` (the local `_cache/<digest>` path),
not `file.f`; this model preserves that behaviour.  The `statusText` part
of the failure messages is outside the model and omitted. -/
def downloadFile (hashHex : String → List Nat → String)
    (cacheHas : String → Bool) (httpGet : String → Option (Nat × List Nat))
    (file : FileRef) (baseUrl : String) :
    Except String String × List NetEffect :=
  let f := baseUrl ++ file.f
  if jsToUpper file.h.algorithm = "MD5" then
    (.error "FATAL: INSECURE: MD5 is not supported", [])
  else if jsToUpper file.h.algorithm = "SHA1" then
    (.error "FATAL: INSECURE: SHA1 is not supported", [])
  else if file.h.algorithm ≠ "none" then
    let fileRoute := "_cache/" ++ file.h.digest
    if cacheHas fileRoute then (.ok fileRoute, [])
    else
      match httpGet fileRoute with
      | none => (.error "network error", [.netGet fileRoute])
      | some (status, data) =>
        if status ≠ 200 then
          (.error ("Failed to download file " ++ f ++ " from " ++ fileRoute ++
            ": " ++ toString status), [.netGet fileRoute])
        else
          if hashHex file.h.algorithm data ≠ file.h.digest then
            (.error ("File " ++ f ++ " from " ++ fileRoute ++
              " has an invalid hash"), [.netGet fileRoute])
          else
            (.ok fileRoute, [.netGet fileRoute, .cacheWrite fileRoute data])
  else
    match httpGet f with
    | none => (.error "network error", [.netGet f])
    | some (status, data) =>
      if status ≠ 200 then
        (.error ("Failed to download file " ++ f ++ ": " ++ toString status),
          [.netGet f])
      else
        let fileHash := hashHex "SHA512" data
        (.ok ("_cache/" ++ fileHash),
          [.netGet f, .cacheWrite ("_cache/" ++ fileHash) data])

/-- C1 (code bug): for a named-algorithm file not in the cache, the only
HTTP request `downloadFile` makes targets the local cache path
`_cache/<digest>` (because the source calls `axios.get(fileRoute)`), not
the URL `baseUrl + file.f` the spec and the function's own documentation
and `'none'` branch prescribe; so the download fails even when the real
URL serves the bytes. -/
theorem downloadFile_requests_cache_path_not_url :
    downloadFile (fun _ _ => "d0") (fun _ => false)
      (fun url => if url = "https://rfo.sh/flags.json" then
        some (200, [1, 2, 3]) else none)
      { f := "flags.json", h := { algorithm := "SHA512", digest := "d0" } }
      "https://rfo.sh/" =
      (.error "network error", [.netGet "_cache/d0"]) ∧
    ("_cache/d0" : String) ≠ "https://rfo.sh/" ++ "flags.json" := by
  constructor
  · rfl
  · decide

/-- C3: for every File whose hash algorithm upper-cases to one of the two
disallowed legacy algorithms (MD5, SHA1), `downloadFile` fails immediately
with the corresponding `FATAL: INSECURE` error, and the effect trace is
empty: no network request and no cache write are performed. -/
theorem downloadFile_rejects_legacy_algorithms
    (hashHex : String → List Nat → String) (cacheHas : String → Bool)
    (httpGet : String → Option (Nat × List Nat)) (file : FileRef) (baseUrl : String)
    (h : jsToUpper file.h.algorithm = "MD5" ∨ jsToUpper file.h.algorithm = "SHA1") :
    downloadFile hashHex cacheHas httpGet file baseUrl =
      (.error (if jsToUpper file.h.algorithm = "MD5"
        then "FATAL: INSECURE: MD5 is not supported"
        else "FATAL: INSECURE: SHA1 is not supported"), []) := by
  by_cases h1 : jsToUpper file.h.algorithm = "MD5"
  · simp [downloadFile, h1]
  · rcases h with h | h
    · exact absurd h h1
    · simp [downloadFile, h1, h]

theorem downloadFile_rejects_legacy_algorithms_witness :
    downloadFile (fun _ _ => "") (fun _ => false) (fun _ => none)
      { f := "x", h := { algorithm := "md5", digest := "d" } } "" =
      (.error "FATAL: INSECURE: MD5 is not supported", []) ∧
    downloadFile (fun _ _ => "") (fun _ => false) (fun _ => none)
      { f := "x", h := { algorithm := "Sha1", digest := "d" } } "" =
      (.error "FATAL: INSECURE: SHA1 is not supported", []) := by
  constructor
  · have := downloadFile_rejects_legacy_algorithms (fun _ _ => "") (fun _ => false)
      (fun _ => none) { f := "x", h := { algorithm := "md5", digest := "d" } } ""
      (Or.inl (by decide))
    simpa using this
  · have := downloadFile_rejects_legacy_algorithms (fun _ _ => "") (fun _ => false)
      (fun _ => none) { f := "x", h := { algorithm := "Sha1", digest := "d" } } ""
      (Or.inr (by decide))
    simpa using this

/-- C4: for every File with a named (non-`'none'`, non-legacy) algorithm
whose digest is not cached, if the fetched bytes hash to something other
than the declared digest, `downloadFile` fails with the invalid-hash
(IntegrityMismatch) error, and the effect trace holds only the GET — no
`cacheWrite` occurs, so the cache gains no file for that digest. -/
theorem downloadFile_integrity_mismatch_no_write
    (hashHex : String → List Nat → String) (cacheHas : String → Bool)
    (httpGet : String → Option (Nat × List Nat)) (file : FileRef) (baseUrl : String)
    (data : List Nat)
    (hm : jsToUpper file.h.algorithm ≠ "MD5")
    (hs : jsToUpper file.h.algorithm ≠ "SHA1")
    (hn : file.h.algorithm ≠ "none")
    (hc : cacheHas ("_cache/" ++ file.h.digest) = false)
    (hg : httpGet ("_cache/" ++ file.h.digest) = some (200, data))
    (hh : hashHex file.h.algorithm data ≠ file.h.digest) :
    downloadFile hashHex cacheHas httpGet file baseUrl =
      (.error ("File " ++ (baseUrl ++ file.f) ++ " from " ++
          ("_cache/" ++ file.h.digest) ++ " has an invalid hash"),
        [.netGet ("_cache/" ++ file.h.digest)]) := by
  simp [downloadFile, hm, hs, hn, hc, hg, hh]

theorem downloadFile_integrity_mismatch_no_write_witness :
    downloadFile (fun _ _ => "wrong") (fun _ => false)
      (fun url => if url = "_cache/d0" then some (200, [9]) else none)
      { f := "x", h := { algorithm := "SHA512", digest := "d0" } } "b/" =
      (.error "File b/x from _cache/d0 has an invalid hash",
        [.netGet "_cache/d0"]) := by
  have := downloadFile_integrity_mismatch_no_write (fun _ _ => "wrong")
    (fun _ => false) (fun url => if url = "_cache/d0" then some (200, [9]) else none)
    { f := "x", h := { algorithm := "SHA512", digest := "d0" } } "b/" [9]
    (by decide) (by decide) (by decide) rfl (by simp) (by decide)
  simpa using this

/-! Section: manifest loader, `fetchFlagList` and `fetchFlagLists` -/

/-- Model of `FlagListPreprocessor.fetchFlagList(flagListUrl)`
(FlagListPreprocessor.ts lines 215-229), over oracles
`httpGet url` (= `axios.get`; `none` means the request rejects) and
`parse body` (= `json5.parse`; `none` means it throws).  The `try` body
returns `null` (here `.ok none`) on a non-200 response after a warning;
ANY exception inside the `try` — a rejected request or a parse error — is
caught, logged, and RE-THROWN as the `Failed to parse flag list` error. -/
def fetchFlagList {α : Type} (httpGet : String → Option (Nat × String))
    (parse : String → Option α) (src : String × String) : Except String (Option α) :=
  match httpGet src.2 with
  | none => .error ("Failed to parse flag list " ++ src.1 ++ " from " ++ src.2)
  | some (status, body) =>
    if status ≠ 200 then .ok none
    else
      match parse body with
      | none => .error ("Failed to parse flag list " ++ src.1 ++ " from " ++ src.2)
      | some fl => .ok (some fl)

/-- Model of the `Promise.all` over `fetchFlagList` calls: collects every result,
failing as soon as any call fails. -/
def fetchAllFlagLists {α : Type} (httpGet : String → Option (Nat × String))
    (parse : String → Option α) :
    List (String × String) → Except String (List (Option α))
  | [] => .ok []
  | s :: rest =>
    match fetchFlagList httpGet parse s with
    | .error e => .error e
    | .ok r =>
      match fetchAllFlagLists httpGet parse rest with
      | .error e => .error e
      | .ok rs => .ok (r :: rs)

/-- Model of `FlagListPreprocessor.fetchFlagLists()` (FlagListPreprocessor.ts lines
201-210): `Promise.all` over the default source followed by the configured
sources, then `filter(≠ null)`, then appends the flag lists read from
disk (`readLocalFlagLists`, modelled as the given list). -/
def fetchFlagLists {α : Type} (httpGet : String → Option (Nat × String))
    (parse : String → Option α) (defaultSrc : String × String)
    (srcs : List (String × String)) (localLists : List α) : Except String (List α) :=
  match fetchAllFlagLists httpGet parse (defaultSrc :: srcs) with
  | .error e => .error e
  | .ok rs => .ok (rs.filterMap id ++ localLists)

/-- C2 counterexample: a remote source whose fetch succeeds (status 200)
but whose body fails to parse is NOT merely logged and dropped — the catch
block rethrows, so `fetchFlagList` fails and the whole `fetchFlagLists`
load aborts with that error, returning no manifests at all. -/
theorem fetchFlagLists_parse_failure_aborts :
    fetchFlagLists (α := Nat) (fun _ => some (200, "not json"))
      (fun _ => none) ("Default Flags", "https://example/a") [] [42] =
      .error "Failed to parse flag list Default Flags from https://example/a" := by
  rfl

theorem fetchAllFlagLists_error_of_mem {α : Type}
    (httpGet : String → Option (Nat × String)) (parse : String → Option α) :
    ∀ (ss : List (String × String)),
    (∃ s ∈ ss, ∃ e, fetchFlagList httpGet parse s = .error e) →
    ∃ e2, fetchAllFlagLists httpGet parse ss = .error e2 := by
  intro ss
  induction ss with
  | nil => rintro ⟨s, hs, _⟩; simp at hs
  | cons s rest ih =>
    rintro ⟨t, ht, e, he⟩
    cases hf : fetchFlagList httpGet parse s with
    | error e0 => exact ⟨e0, by simp [fetchAllFlagLists, hf]⟩
    | ok r =>
      rcases List.mem_cons.mp ht with rfl | htr
      · rw [hf] at he; cases he
      · obtain ⟨e2, he2⟩ := ih ⟨t, htr, e, he⟩
        exact ⟨e2, by simp [fetchAllFlagLists, hf, he2]⟩

/-- C2 amended: a fetch that completes with a non-200 status is only
logged and that source is dropped (`null`, filtered out); but a rejected
request or a parse failure of an individual remote source — default or
configured, in any position — is fatal: the catch block rethrows
`Failed to parse flag list`, aborting the whole load.  When every source
resolves, the load returns the successful (non-null) remote manifests in
declaration order followed by all local manifests. -/
theorem fetchFlagLists_soft_and_fatal_failures :
    (∀ (httpGet : String → Option (Nat × String)) (parse : String → Option Nat)
      (name url : String) (status : Nat) (body : String),
      httpGet url = some (status, body) → status ≠ 200 →
      fetchFlagList httpGet parse (name, url) = .ok none) ∧
    (∀ (httpGet : String → Option (Nat × String)) (parse : String → Option Nat)
      (name url : String), httpGet url = none →
      fetchFlagList httpGet parse (name, url) =
        .error ("Failed to parse flag list " ++ name ++ " from " ++ url)) ∧
    (∀ (httpGet : String → Option (Nat × String)) (parse : String → Option Nat)
      (name url : String) (body : String),
      httpGet url = some (200, body) → parse body = none →
      fetchFlagList httpGet parse (name, url) =
        .error ("Failed to parse flag list " ++ name ++ " from " ++ url)) ∧
    (∀ (httpGet : String → Option (Nat × String)) (parse : String → Option Nat)
      (d : String × String) (srcs : List (String × String)) (locals : List Nat)
      (s : String × String) (e : String),
      s ∈ d :: srcs → fetchFlagList httpGet parse s = .error e →
      ∃ e2, fetchFlagLists httpGet parse d srcs locals = .error e2) ∧
    (∀ (httpGet : String → Option (Nat × String)) (parse : String → Option Nat)
      (d : String × String) (srcs : List (String × String)) (locals : List Nat)
      (rs : List (Option Nat)),
      fetchAllFlagLists httpGet parse (d :: srcs) = .ok rs →
      fetchFlagLists httpGet parse d srcs locals = .ok (rs.filterMap id ++ locals)) := by
  refine ⟨?_, ?_, ?_, ?_, ?_⟩
  · intro httpGet parse name url status body hg hs
    simp [fetchFlagList, hg, hs]
  · intro httpGet parse name url hg
    simp [fetchFlagList, hg]
  · intro httpGet parse name url body hg hp
    simp [fetchFlagList, hg, hp]
  · intro httpGet parse d srcs locals s e hs he
    obtain ⟨e2, he2⟩ := fetchAllFlagLists_error_of_mem httpGet parse (d :: srcs)
      ⟨s, hs, e, he⟩
    exact ⟨e2, by simp [fetchFlagLists, he2]⟩
  · intro httpGet parse d srcs locals rs hok
    simp [fetchFlagLists, hok]

theorem fetchFlagLists_soft_and_fatal_failures_witness :
    fetchFlagList (α := Nat) (fun _ => some (404, "")) (fun _ => some 1)
      ("n", "u") = .ok none ∧
    fetchFlagList (α := Nat) (fun _ => none) (fun _ => some 1)
      ("n", "u") = .error "Failed to parse flag list n from u" ∧
    fetchFlagList (α := Nat) (fun _ => some (200, "bad")) (fun _ => none)
      ("n", "u") = .error "Failed to parse flag list n from u" ∧
    (∃ e2, fetchFlagLists (α := Nat)
      (fun u => if u = "u" then some (200, "x") else none) (fun _ => some 5)
      ("n", "u") [("m", "v")] [7] = .error e2) ∧
    fetchFlagLists (α := Nat) (fun _ => some (200, "ok")) (fun _ => some 5)
      ("n", "u") [("m", "v")] [7] = .ok [5, 5, 7] := by
  refine ⟨?_, ?_, ?_, ?_, ?_⟩
  · exact fetchFlagLists_soft_and_fatal_failures.1 _ _ "n" "u" 404 "" rfl (by decide)
  · exact fetchFlagLists_soft_and_fatal_failures.2.1 _ _ "n" "u" rfl
  · exact fetchFlagLists_soft_and_fatal_failures.2.2.1 _ _ "n" "u" "bad" rfl rfl
  · exact fetchFlagLists_soft_and_fatal_failures.2.2.2.1
      (fun u => if u = "u" then some (200, "x") else none) (fun _ => some 5)
      ("n", "u") [("m", "v")] [7] ("m", "v") "Failed to parse flag list m from v"
      (by simp)
      (fetchFlagLists_soft_and_fatal_failures.2.1
        (fun u => if u = "u" then some (200, "x") else none) (fun _ => some 5)
        "m" "v" (by simp))
  · exact fetchFlagLists_soft_and_fatal_failures.2.2.2.2 _ _ ("n", "u") [("m", "v")]
      [7] [some 5, some 5] rfl

/-! Section: selection merge engine, `RFO.getFlagFiles` and friends -/

/-- Model of `ProcessedFeature` (FlagListPreprocessor.ts lines 10-26): multi-choice
features carry a list-valued default/value plus min/max; single-choice
features carry a single string default/value (falsy = the empty string).
`options` maps option names to resolved file paths. -/
inductive PFeature where
  | multi : (name : String) → (options : List (String × List String)) →
      (dflt : List String) → (value : List String) → (min max : Nat) → PFeature
  | single : (name : String) → (options : List (String × List String)) →
      (dflt : String) → (value : String) → PFeature

/-- Model of `ProcessedFlagListItem` (FlagListPreprocessor.ts lines 27-34). -/
structure PItem where
  name : String
  baseurl : String
  dflt : Bool
  enabled : Bool
  base : List String
  features : List PFeature

/-- Model of `ProcessedFlagList = Record<string, ProcessedFlagListItem>`, an
insertion-ordered mapping (iterated by `Object.values`). -/
def ProcessedFlagList : Type := List (String × PItem)

/-- The `for (const flag of feature.value)` loop of the multi-choice
branch of `RFO.getFlagFiles`: for every selected value in order, that
value's option files — throwing `Invalid flag value` when a selected value
has no matching option (even an empty file list counts as a match: only a
missing key is falsy). -/
def multiFiles (opts : List (String × List String)) :
    List String → Except String (List String)
  | [] => .ok []
  | v :: rest =>
    match lookupAssoc opts v with
    | none => .error ("Invalid flag value: " ++ v)
    | some fs =>
      match multiFiles opts rest with
      | .error e => .error e
      | .ok more => .ok (fs ++ more)

/-- Files contributed by one feature (`RFO.getFlagFiles` inner
`forEach`): a multi-choice feature contributes `multiFiles`; a
single-choice feature contributes its current value's option files only
when the value is truthy (non-empty) and has a matching option, silently
skipping otherwise. -/
def featureFiles : PFeature → Except String (List String)
  | .multi _ opts _ value _ _ => multiFiles opts value
  | .single _ opts _ value =>
    .ok (if value = "" then []
      else match lookupAssoc opts value with
        | some fs => fs
        | none => [])

/-- Sequential concatenation over an item's feature list. -/
def featuresFiles : List PFeature → Except String (List String)
  | [] => .ok []
  | f :: rest =>
    match featureFiles f with
    | .error e => .error e
    | .ok fs =>
      match featuresFiles rest with
      | .error e => .error e
      | .ok more => .ok (fs ++ more)

/-- Files contributed by one manifest item: nothing when disabled;
otherwise all base files in listed order followed by each feature's files
in listed order. -/
def itemFiles (it : PItem) : Except String (List String) :=
  if it.enabled then
    match featuresFiles it.features with
    | .error e => .error e
    | .ok fs => .ok (it.base ++ fs)
  else .ok []

/-- Model of the `Object.values` iteration over one processed flag list. -/
def flagListFiles : ProcessedFlagList → Except String (List String)
  | [] => .ok []
  | (_, it) :: rest =>
    match itemFiles it with
    | .error e => .error e
    | .ok fs =>
      match flagListFiles rest with
      | .error e => .error e
      | .ok more => .ok (fs ++ more)

/-- The nested loop of `getFlagFiles` over all processed flag lists. -/
def getFlagFilesGo : List ProcessedFlagList → Except String (List String)
  | [] => .ok []
  | pl :: rest =>
    match flagListFiles pl with
    | .error e => .error e
    | .ok fs =>
      match getFlagFilesGo rest with
      | .error e => .error e
      | .ok more => .ok (fs ++ more)

/-- Model of `RFO.getFlagFiles()` (src/unnamed/part_001 lines 71-93): throws
`Did not preprocess flags` when no processed flag lists exist (the
second, identical length check is unreachable), otherwise walks manifests
in load order and items in insertion order collecting files. -/
def getFlagFiles (pls : List ProcessedFlagList) : Except String (List String) :=
  if pls.isEmpty then .error "Did not preprocess flags"
  else getFlagFilesGo pls

/-- JS object spread `{...m, ...doc}` on top-level keys: each key of `doc`
overwrites a same-named key of `m` in place, new keys append in `doc`
order. -/
def spreadMerge (m doc : List (String × JVal)) : List (String × JVal) :=
  doc.foldl (fun acc kv => setAssoc acc kv.1 kv.2) m

/-- Model of `RFO.mergeFlagFiles(flagFiles)` (src/unnamed/part_001 lines 104-114)
over a filesystem oracle `fsys path` (= `existsSync` + `readFileSync` +
`json5.parse`: `none` means the file does not exist; parse errors are
outside the claims and not modelled).  For each file in order: missing
file is fatal, otherwise `merged = {...merged, ...parsed}`. -/
def mergeFlagFilesGo (fsys : String → Option (List (String × JVal)))
    (merged : List (String × JVal)) :
    List String → Except String (List (String × JVal))
  | [] => .ok merged
  | p :: rest =>
    match fsys p with
    | none => .error ("Flag file does not exist: " ++ p)
    | some doc => mergeFlagFilesGo fsys (spreadMerge merged doc) rest

/-- Model of `RFO.mergeFlagFiles` with an explicitly given file list. -/
def mergeFlagFiles (fsys : String → Option (List (String × JVal)))
    (paths : List String) : Except String (List (String × JVal)) :=
  mergeFlagFilesGo fsys [] paths

/-- Model of `RFO.dumpFlags(flagFiles)` (src/unnamed/part_001 lines 95-102): a
mapping from file path to that file's parsed content, same missing-file
failure policy as `mergeFlagFiles`. -/
def dumpFlags (fsys : String → Option (List (String × JVal)))
    (merged : List (String × List (String × JVal))) :
    List String → Except String (List (String × List (String × JVal)))
  | [] => .ok merged
  | p :: rest =>
    match fsys p with
    | none => .error ("Flag file does not exist: " ++ p)
    | some doc => dumpFlags fsys (setAssoc merged p doc) rest

/-- Model of `RFO.mergeFlagFiles()` invoked through its default argument
`flagFiles = this.getFlagFiles()`. -/
def mergeFlagFilesDefault (fsys : String → Option (List (String × JVal)))
    (pls : List ProcessedFlagList) : Except String (List (String × JVal)) :=
  match getFlagFiles pls with
  | .error e => .error e
  | .ok files => mergeFlagFiles fsys files

/-- Model of `RFO.dumpFlags()` invoked through its default argument
`flagFiles = this.getFlagFiles()`. -/
def dumpFlagsDefault (fsys : String → Option (List (String × JVal)))
    (pls : List ProcessedFlagList) :
    Except String (List (String × List (String × JVal))) :=
  match getFlagFiles pls with
  | .error e => .error e
  | .ok files => dumpFlags fsys [] files

/-- The write loop of `applyFlags` over the found install paths, returning
the ordered trace of writes performed together with the outcome: paths are
processed front to back, each existing path receiving a write of the
merged document at `<path>/ClientSettings/ClientAppSettings.json` before
the next path is checked; a missing version directory aborts the loop with
its error, but the writes already performed into earlier paths remain in
the trace (as in the source, which throws mid-loop after having written
the earlier files). -/
def applyFlagsWrites (existsDir : String → Bool)
    (merged : List (String × JVal)) :
    List String → List (String × List (String × JVal)) × Except String Unit
  | [] => ([], .ok ())
  | p :: rest =>
    if existsDir p then
      let pr := applyFlagsWrites existsDir merged rest
      ((p ++ "/ClientSettings/ClientAppSettings.json", merged) :: pr.1, pr.2)
    else ([], .error ("Roblox Version does not exist: " ++ p))

/-- Model of `RFO.applyFlags()` (src/unnamed/part_001 lines 116-126): fails when no
Roblox versions were found, then when no flags were processed; otherwise
merges `mergeFlagFiles(getFlagFiles())` and writes it into every found
install directory.  Returns the trace of writes performed plus the
outcome; every failure before the write loop carries an empty trace. -/
def applyFlags (existsDir : String → Bool)
    (fsys : String → Option (List (String × JVal)))
    (robloxPaths : List String) (pls : List ProcessedFlagList) :
    List (String × List (String × JVal)) × Except String Unit :=
  if robloxPaths.isEmpty then ([], .error "No Roblox Versions found")
  else if pls.isEmpty then ([], .error "No flags found")
  else
    match getFlagFiles pls with
    | .error e => ([], .error e)
    | .ok files =>
      match mergeFlagFiles fsys files with
      | .error e => ([], .error e)
      | .ok merged => applyFlagsWrites existsDir merged robloxPaths

/-! Section: lemmas for the selection merge engine -/

theorem multiFiles_ok (opts : List (String × List String)) (vs : List String)
    (h : ∀ v ∈ vs, (lookupAssoc opts v).isSome) :
    multiFiles opts vs =
      .ok ((vs.map (fun v => (lookupAssoc opts v).getD [])).flatten) := by
  induction vs with
  | nil => simp [multiFiles]
  | cons v rest ih =>
    obtain ⟨fs, hfs⟩ := Option.isSome_iff_exists.mp (h v (List.mem_cons_self _ _))
    simp [multiFiles, hfs, ih (fun w hw => h w (List.mem_cons_of_mem _ hw))]

theorem multiFiles_error (opts : List (String × List String))
    (pre post : List String) (v : String)
    (hpre : ∀ w ∈ pre, (lookupAssoc opts w).isSome)
    (hv : lookupAssoc opts v = none) :
    multiFiles opts (pre ++ v :: post) = .error ("Invalid flag value: " ++ v) := by
  induction pre with
  | nil => simp [multiFiles, hv]
  | cons w rest ih =>
    obtain ⟨fs, hfs⟩ := Option.isSome_iff_exists.mp (hpre w (List.mem_cons_self _ _))
    simp [multiFiles, hfs, ih (fun u hu => hpre u (List.mem_cons_of_mem _ hu))]

theorem getFlagFiles_single_item_ok (nm : String) (it : PItem) (fs : List String)
    (he : it.enabled = true) (hf : featuresFiles it.features = .ok fs) :
    getFlagFiles [[(nm, it)]] = .ok (it.base ++ fs) := by
  simp [getFlagFiles, getFlagFilesGo, flagListFiles, itemFiles, he, hf]

theorem getFlagFiles_single_item_error (nm : String) (it : PItem) (e : String)
    (he : it.enabled = true) (hf : featuresFiles it.features = .error e) :
    getFlagFiles [[(nm, it)]] = .error e := by
  simp [getFlagFiles, getFlagFilesGo, flagListFiles, itemFiles, he, hf]

/-- C5: getFlagFiles iterates manifests in load order and items in
insertion order, concatenating their contributions; an enabled item
appends all base files in listed order and then each feature's files in
listed order, a disabled item contributes nothing; a multi-choice feature
appends every currently selected value's option files in order, failing
with `Invalid flag value` (InvalidSelection) on a selected value with no
matching option — and that failure aborts getFlagFiles; a single-choice
feature appends its current value's option files when the value is truthy
and has a matching option, and silently skips when the value is falsy or
unmatched; in particular a single enabled item with one multi-choice
feature whose selection equals its declared default yields exactly base
files followed by the default options' files in order. -/
theorem getFlagFiles_selection_semantics :
    (∀ (pl : ProcessedFlagList) (rest : List ProcessedFlagList)
      (fs1 fs2 : List String),
      flagListFiles pl = .ok fs1 → getFlagFilesGo rest = .ok fs2 →
      getFlagFiles (pl :: rest) = .ok (fs1 ++ fs2)) ∧
    (∀ (nm : String) (it : PItem) (rest : ProcessedFlagList)
      (fs1 fs2 : List String),
      itemFiles it = .ok fs1 → flagListFiles rest = .ok fs2 →
      flagListFiles ((nm, it) :: rest) = .ok (fs1 ++ fs2)) ∧
    (∀ (it : PItem) (fs : List String), it.enabled = true →
      featuresFiles it.features = .ok fs → itemFiles it = .ok (it.base ++ fs)) ∧
    (∀ (it : PItem), it.enabled = false → itemFiles it = .ok []) ∧
    (∀ (f : PFeature) (rest : List PFeature) (fs1 fs2 : List String),
      featureFiles f = .ok fs1 → featuresFiles rest = .ok fs2 →
      featuresFiles (f :: rest) = .ok (fs1 ++ fs2)) ∧
    (∀ (fn : String) (opts : List (String × List String)) (dv vs : List String)
      (mn mx : Nat), (∀ v ∈ vs, (lookupAssoc opts v).isSome) →
      featureFiles (.multi fn opts dv vs mn mx) =
        .ok ((vs.map (fun v => (lookupAssoc opts v).getD [])).flatten)) ∧
    (∀ (fn : String) (opts : List (String × List String)) (dv pre post : List String)
      (v : String) (mn mx : Nat), (∀ w ∈ pre, (lookupAssoc opts w).isSome) →
      lookupAssoc opts v = none →
      featureFiles (.multi fn opts dv (pre ++ v :: post) mn mx) =
        .error ("Invalid flag value: " ++ v)) ∧
    (∀ (fn : String) (opts : List (String × List String)) (d v : String)
      (fs : List String), v ≠ "" → lookupAssoc opts v = some fs →
      featureFiles (.single fn opts d v) = .ok fs) ∧
    (∀ (fn : String) (opts : List (String × List String)) (d v : String),
      v = "" ∨ lookupAssoc opts v = none →
      featureFiles (.single fn opts d v) = .ok []) ∧
    (∀ (nm : String) (it : PItem) (e : String), it.enabled = true →
      featuresFiles it.features = .error e →
      getFlagFiles [[(nm, it)]] = .error e) ∧
    (∀ (nm : String) (it : PItem) (fn : String)
      (opts : List (String × List String)) (vs : List String) (mn mx : Nat),
      it.enabled = true → it.features = [.multi fn opts vs vs mn mx] →
      (∀ v ∈ vs, (lookupAssoc opts v).isSome) →
      getFlagFiles [[(nm, it)]] =
        .ok (it.base ++ (vs.map (fun v => (lookupAssoc opts v).getD [])).flatten)) := by
  refine ⟨?_, ?_, ?_, ?_, ?_, ?_, ?_, ?_, ?_, ?_, ?_⟩
  · intro pl rest fs1 fs2 h1 h2
    simp [getFlagFiles, getFlagFilesGo, h1, h2]
  · intro nm it rest fs1 fs2 h1 h2
    simp [flagListFiles, h1, h2]
  · intro it fs he hf
    simp [itemFiles, he, hf]
  · intro it he
    simp [itemFiles, he]
  · intro f rest fs1 fs2 h1 h2
    simp [featuresFiles, h1, h2]
  · intro fn opts dv vs mn mx hsel
    simp only [featureFiles]
    exact multiFiles_ok opts vs hsel
  · intro fn opts dv pre post v mn mx hpre hv
    simp only [featureFiles]
    exact multiFiles_error opts pre post v hpre hv
  · intro fn opts d v fs hv hfs
    simp [featureFiles, hv, hfs]
  · intro fn opts d v hcase
    rcases hcase with rfl | hnone
    · simp [featureFiles]
    · by_cases hv : v = ""
      · simp [featureFiles, hv]
      · simp [featureFiles, hv, hnone]
  · intro nm it e he hf
    exact getFlagFiles_single_item_error nm it e he hf
  · intro nm it fn opts vs mn mx he hfeat hsel
    have h1 := multiFiles_ok opts vs hsel
    have h2 : featuresFiles it.features =
        .ok ((vs.map (fun v => (lookupAssoc opts v).getD [])).flatten) := by
      simp [hfeat, featuresFiles, featureFiles, h1]
    exact getFlagFiles_single_item_ok nm it _ he h2

/-- Concrete items for the getFlagFiles witness: an enabled item with one
base file and no features. -/
def itemA : PItem :=
  { name := "A", baseurl := "", dflt := true, enabled := true,
    base := ["b1"], features := [] }

/-- Concrete items for the getFlagFiles witness: a disabled item. -/
def itemB : PItem :=
  { name := "B", baseurl := "", dflt := false, enabled := false,
    base := ["b2"], features := [] }

/-- Concrete items for the getFlagFiles witness: an enabled item whose
multi-choice selection has no matching option. -/
def itemE : PItem :=
  { name := "E", baseurl := "", dflt := true, enabled := true,
    base := ["be"],
    features := [.multi "G" [("DX11", ["a.json"])] ["M"] ["M"] 1 1] }

/-- Concrete items for the getFlagFiles witness: the spec's FastFlags item
with one multi-choice feature at its declared default. -/
def itemF : PItem :=
  { name := "FastFlags", baseurl := "b/", dflt := true, enabled := true,
    base := ["base.json"],
    features := [.multi "Graphics"
      [("DX11", ["a.json"]), ("Vulkan", ["v.json"])] ["DX11"] ["DX11"] 1 1] }

theorem getFlagFiles_selection_semantics_witness :
    getFlagFiles [[("A", itemA)], [("B", itemB)]] = .ok ["b1"] ∧
    flagListFiles [("A", itemA), ("B", itemB)] = .ok ["b1"] ∧
    itemFiles itemA = .ok ["b1"] ∧
    itemFiles itemB = .ok [] ∧
    featuresFiles [.single "G" [("DX11", ["a.json"])] "DX11" "DX11"] =
      .ok ["a.json"] ∧
    featureFiles (.multi "G" [("DX11", ["a.json"])] ["DX11"] ["DX11"] 1 1) =
      .ok ["a.json"] ∧
    featureFiles (.multi "G" [("DX11", ["a.json"])] ["M"] ["M"] 1 1) =
      .error "Invalid flag value: M" ∧
    featureFiles (.single "G" [("DX11", ["a.json"])] "DX11" "DX11") =
      .ok ["a.json"] ∧
    featureFiles (.single "G" [("DX11", ["a.json"])] "DX11" "") = .ok [] ∧
    getFlagFiles [[("E", itemE)]] = .error "Invalid flag value: M" ∧
    getFlagFiles [[("FastFlags", itemF)]] = .ok ["base.json", "a.json"] := by
  obtain ⟨ha, hb, hc, hc2, hd, hme, hme2, hsp, hss, hpe, hip⟩ :=
    getFlagFiles_selection_semantics
  refine ⟨?_, ?_, ?_, ?_, ?_, ?_, ?_, ?_, ?_, ?_, ?_⟩
  · have := ha [("A", itemA)] [[("B", itemB)]] ["b1"] [] rfl rfl
    simpa using this
  · have := hb "A" itemA [("B", itemB)] ["b1"] [] rfl rfl
    simpa using this
  · have := hc itemA [] rfl rfl
    simpa [itemA] using this
  · exact hc2 itemB rfl
  · have := hd (.single "G" [("DX11", ["a.json"])] "DX11" "DX11") [] ["a.json"] []
      rfl rfl
    simpa using this
  · have := hme "G" [("DX11", ["a.json"])] ["DX11"] ["DX11"] 1 1
      (by intro v hv; simp at hv; subst hv; simp [lookupAssoc])
    simpa [lookupAssoc] using this
  · have := hme2 "G" [("DX11", ["a.json"])] ["M"] [] [] "M" 1 1
      (by intro w hw; simp at hw) (by simp [lookupAssoc])
    simpa using this
  · exact hsp "G" [("DX11", ["a.json"])] "DX11" "DX11" ["a.json"] (by decide) rfl
  · exact hss "G" [("DX11", ["a.json"])] "DX11" "" (Or.inl rfl)
  · exact hpe "E" itemE "Invalid flag value: M" rfl rfl
  · have := hip "FastFlags" itemF "Graphics"
      [("DX11", ["a.json"]), ("Vulkan", ["v.json"])] ["DX11"] 1 1 rfl rfl
      (by intro v hv; simp at hv; subst hv; simp [lookupAssoc])
    simpa [itemF, lookupAssoc] using this

theorem lookup_spreadMerge_not_mem : ∀ (doc m : List (String × JVal)) (k : String),
    k ∉ doc.map Prod.fst → lookupAssoc (spreadMerge m doc) k = lookupAssoc m k := by
  intro doc
  induction doc with
  | nil => intro m k _; rfl
  | cons kv rest ih =>
    intro m k hk
    simp only [List.map_cons, List.mem_cons] at hk
    push_neg at hk
    have : spreadMerge m (kv :: rest) = spreadMerge (setAssoc m kv.1 kv.2) rest := rfl
    rw [this, ih (setAssoc m kv.1 kv.2) k hk.2]
    exact lookup_setAssoc_ne m kv.1 k kv.2 hk.1

theorem lookup_spreadMerge_mem : ∀ (doc m : List (String × JVal)) (k : String),
    k ∈ doc.map Prod.fst → (doc.map Prod.fst).Nodup →
    lookupAssoc (spreadMerge m doc) k = lookupAssoc doc k := by
  intro doc
  induction doc with
  | nil => intro m k hk _; simp at hk
  | cons kv rest ih =>
    intro m k hk hnd
    simp only [List.map_cons, List.mem_cons] at hk
    simp only [List.map_cons, List.nodup_cons] at hnd
    have hstep : spreadMerge m (kv :: rest) = spreadMerge (setAssoc m kv.1 kv.2) rest := rfl
    rcases hk with rfl | hk
    · rw [hstep, lookup_spreadMerge_not_mem rest (setAssoc m kv.1 kv.2) kv.1 hnd.1,
        lookup_setAssoc_self]
      obtain ⟨k0, v0⟩ := kv
      simp [lookupAssoc]
    · have hne : ¬(kv.1 = k) := by
        intro he
        exact hnd.1 (he ▸ hk)
      rw [hstep, ih (setAssoc m kv.1 kv.2) k hk hnd.2]
      obtain ⟨k0, v0⟩ := kv
      simp only at hne
      simp [lookupAssoc, hne]

theorem mergeFlagFilesGo_missing : ∀ (pre : List String)
    (fsys : String → Option (List (String × JVal))) (merged : List (String × JVal))
    (p : String) (post : List String),
    fsys p = none → (∀ q ∈ pre, (fsys q).isSome) →
    mergeFlagFilesGo fsys merged (pre ++ p :: post) =
      .error ("Flag file does not exist: " ++ p) := by
  intro pre
  induction pre with
  | nil =>
    intro fsys merged p post hp _
    simp [mergeFlagFilesGo, hp]
  | cons q rest ih =>
    intro fsys merged p post hp hpre
    obtain ⟨doc, hdoc⟩ := Option.isSome_iff_exists.mp (hpre q (List.mem_cons_self _ _))
    simp only [List.cons_append, mergeFlagFilesGo, hdoc]
    exact ih fsys (spreadMerge merged doc) p post hp
      (fun u hu => hpre u (List.mem_cons_of_mem _ hu))

/-- C6: mergeFlagFiles parses each resolved file in order and merges
shallowly at the top level, later files' keys overwriting earlier ones
(last-file-wins per key, no deep merge): merging `{"A":1,"B":2}` then
`{"B":3,"C":4}` yields `{"A":1,"B":3,"C":4}`; a key of the newly merged
file always ends up with that file's value, a key it lacks keeps the
accumulated value; and a path missing at merge time is fatal with
`Flag file does not exist` (MissingConfigFragment) naming the path. -/
theorem mergeFlagFiles_shallow_last_wins :
    (mergeFlagFiles
      (fun p => if p = "f1" then some [("A", .prim 1), ("B", .prim 2)]
        else if p = "f2" then some [("B", .prim 3), ("C", .prim 4)] else none)
      ["f1", "f2"] = .ok [("A", .prim 1), ("B", .prim 3), ("C", .prim 4)]) ∧
    (∀ (fsys : String → Option (List (String × JVal))) (pre : List String)
      (p : String) (post : List String),
      fsys p = none → (∀ q ∈ pre, (fsys q).isSome) →
      mergeFlagFiles fsys (pre ++ p :: post) =
        .error ("Flag file does not exist: " ++ p)) ∧
    (∀ (m doc : List (String × JVal)) (k : String),
      k ∈ doc.map Prod.fst → (doc.map Prod.fst).Nodup →
      lookupAssoc (spreadMerge m doc) k = lookupAssoc doc k) ∧
    (∀ (m doc : List (String × JVal)) (k : String), k ∉ doc.map Prod.fst →
      lookupAssoc (spreadMerge m doc) k = lookupAssoc m k) := by
  refine ⟨rfl, ?_, ?_, ?_⟩
  · intro fsys pre p post hp hpre
    exact mergeFlagFilesGo_missing pre fsys [] p post hp hpre
  · intro m doc k hk hnd
    exact lookup_spreadMerge_mem doc m k hk hnd
  · intro m doc k hk
    exact lookup_spreadMerge_not_mem doc m k hk

theorem mergeFlagFiles_shallow_last_wins_witness :
    mergeFlagFiles (fun _ => none) ["gone"] =
      .error "Flag file does not exist: gone" ∧
    lookupAssoc (spreadMerge [("A", .prim 1)] [("B", .prim 3)]) "B" =
      lookupAssoc [("B", JVal.prim 3)] "B" ∧
    lookupAssoc (spreadMerge [("A", .prim 1)] [("B", .prim 3)]) "A" =
      lookupAssoc [("A", JVal.prim 1)] "A" := by
  refine ⟨?_, ?_, ?_⟩
  · exact mergeFlagFiles_shallow_last_wins.2.1 (fun _ => none) [] "gone" [] rfl
      (by intro q hq; simp at hq)
  · exact mergeFlagFiles_shallow_last_wins.2.2.1 [("A", .prim 1)] [("B", .prim 3)]
      "B" (by decide) (by decide)
  · exact mergeFlagFiles_shallow_last_wins.2.2.2 [("A", .prim 1)] [("B", .prim 3)]
      "A" (by decide)

/-- C10 (implicit): with an empty processed-flag-list state the public
operations do not silently produce an empty configuration: getFlagFiles
throws `Did not preprocess flags`; mergeFlagFiles and dumpFlags invoked
through their default argument propagate that same error; and applyFlags
throws (`No Roblox Versions found` when no versions were found either,
otherwise `No flags found`) having performed no writes. -/
theorem empty_processed_flag_lists_throw :
    getFlagFiles [] = .error "Did not preprocess flags" ∧
    (∀ fsys, mergeFlagFilesDefault fsys [] = .error "Did not preprocess flags") ∧
    (∀ fsys, dumpFlagsDefault fsys [] = .error "Did not preprocess flags") ∧
    (∀ (existsDir : String → Bool) (fsys : String → Option (List (String × JVal)))
      (robloxPaths : List String), ∃ e,
      applyFlags existsDir fsys robloxPaths [] = ([], .error e)) := by
  refine ⟨rfl, fun fsys => rfl, fun fsys => rfl, ?_⟩
  intro existsDir fsys rp
  cases rp with
  | nil => exact ⟨"No Roblox Versions found", rfl⟩
  | cons p rest => exact ⟨"No flags found", rfl⟩
